import Mathlib

/-!
# Verification of the tide-tera render adapter

A shallow embedding of `src/lib.rs`: the `TideTeraExt` extension trait
(`render_body`, `render_response`) and the `context!` macro, together with
models of the external capabilities they call into (`tide::Body`,
`tide::Response`, `tide::http::Mime::from_extension`, `std::path::Path`
extension extraction, and `tera::Context`).

MIME types are modelled by their essence strings (`"text/html"`,
`"text/plain"`, ...). Render errors are kept fully abstract (a type
parameter `E`), since the adapter never inspects them.
-/

/-- A tera render context: a mapping from string keys to values, modelled as
an association list where the most recent insertion comes first (so lookup
sees the last write, matching `BTreeMap` overwrite semantics). The value
type `V` is abstract (tera accepts any serializable value). -/
structure Context (V : Type) where
  entries : List (String × V)
deriving DecidableEq, Repr

/-- Model of `tera::Context::new()`: the empty context. -/
def Context.new {V : Type} : Context V := ⟨[]⟩

/-- Model of `tera::Context::insert(key, value)`: a later insertion shadows
an earlier one with the same key. -/
def Context.insert {V : Type} (c : Context V) (k : String) (v : V) : Context V :=
  ⟨(k, v) :: c.entries⟩

/-- Lookup in a context: the value of the most recent insertion for `k`. -/
def Context.get {V : Type} (c : Context V) (k : String) : Option V :=
  (c.entries.find? (fun kv => kv.1 == k)).map Prod.snd

/-- Model of the expansion of the `context!` macro
(`src/lib.rs` lines 74-86): start from `Context::new()` and insert each
key/value pair in argument order. -/
def contextOf {V : Type} (ps : List (String × V)) : Context V :=
  ps.foldl (fun c kv => c.insert kv.1 kv.2) Context.new

/-- A `tide::Body` produced from a string: its text content plus its one
mutable attribute, the MIME type (modelled by its essence string). -/
structure Body where
  text : String
  mime : String
deriving DecidableEq, Repr

/-- Model of `tide::Body::from_string`: fresh body with the default
plain-text MIME type. -/
def Body.from_string (s : String) : Body :=
  { text := s, mime := "text/plain" }

/-- Model of `tide::Body::set_mime`. -/
def Body.set_mime (b : Body) (m : String) : Body :=
  { b with mime := m }

/-- A `tide::Response`: a status code and a body. The response's content
type is the body's MIME type. -/
structure Response where
  status : Nat
  body : Body
deriving DecidableEq, Repr

/-- Drop the trailing path segments that Rust's `Path::components`
normalizes away before `file_name` is taken: trailing slashes (empty
segments) and trailing `.` (CurDir) segments. The input is the path's
character list REVERSED, so those segments appear at the front. -/
def dropDotSlashR : List Char → List Char
  | [] => []
  | '/' :: r => dropDotSlashR r
  | '.' :: '/' :: r => dropDotSlashR r
  | ['.'] => []
  | r => r

/-- The last slash-separated segment of the path after the trailing
normalization of `dropDotSlashR`. -/
def rawLastSeg (s : String) : List Char :=
  ((dropDotSlashR s.data.reverse).takeWhile (fun c => c != '/')).reverse

/-- Model of `std::path::Path::file_name` (Unix): the final normal
slash-separated segment, with trailing `/` and `.` segments ignored;
`none` when nothing remains or the final segment is `..`. -/
def fileName (s : String) : Option String :=
  if rawLastSeg s = [] then none
  else if rawLastSeg s = ['.', '.'] then none
  else some ⟨rawLastSeg s⟩

/-- The maximal dot-free suffix of a file name, reversed: the candidate
extension. -/
def extCandidate (f : List Char) : List Char :=
  f.reverse.takeWhile (fun c => c != '.')

/-- Model of `std::path::Path::extension` restricted to a file name `f`:
the portion of `f` after its final `.`; `none` when `f` has no `.`, or when
its only `.` is the leading character (a dotfile such as `.html`). -/
def extOfFileName (f : List Char) : Option (List Char) :=
  if f.length = (extCandidate f).length then none
  else if f.length = (extCandidate f).length + 1 then none
  else some (extCandidate f).reverse

/-- Model of `PathBuf::from(template_name).extension()` followed by
`to_string_lossy` (lossless here: the input is a Rust `&str`, hence valid
UTF-8), as used at `src/lib.rs` lines 50-51. -/
def extension (s : String) : Option String :=
  match fileName s with
  | none => none
  | some f => (extOfFileName f.data).map (fun e => (⟨e⟩ : String))

/-- Modelled from the spec: `tide::http::Mime::from_extension` is the
externally-defined extension-to-MIME table (not part of this repository).
Per the spec it is "a fixed, externally-defined lookup from lowercase
filename extension to MIME type (e.g., `html` → `text/html`)"; the lookup
is a literal match against the lowercase keys, with no normalization of the
queried extension. -/
def Mime.from_extension (ext : String) : Option String :=
  if ext = "html" then some "text/html"
  else if ext = "js" ∨ ext = "mjs" ∨ ext = "jsonp" then some "application/javascript"
  else if ext = "json" then some "application/json"
  else if ext = "css" then some "text/css"
  else if ext = "svg" then some "image/svg+xml"
  else if ext = "xml" then some "application/xml"
  else none

/-- The template renderer capability (`tera::Tera::render`): from a
template identifier and a context, either a rendered string or an error.
The error type `E` is abstract; the adapter never inspects it. -/
def Tera (E V : Type) : Type :=
  String → Context V → Except E String

/-- Model of `TideTeraExt::render_body` (`src/lib.rs` lines 46-58):
render, build a body from the resulting string, and set its MIME type when
the template name's extension is recognized by the table. -/
def render_body {E V : Type} (tera : Tera E V) (template_name : String)
    (context : Context V) : Except E Body :=
  match tera template_name context with
  | Except.error e => Except.error e
  | Except.ok string =>
    let body := Body.from_string string
    let body :=
      match extension template_name with
      | none => body
      | some ext =>
        match Mime.from_extension ext with
        | none => body
        | some mime => body.set_mime mime
    Except.ok body

/-- Model of `TideTeraExt::render_response` (`src/lib.rs` lines 60-64):
a status-200 response whose body is the one from `render_body`. -/
def render_response {E V : Type} (tera : Tera E V) (template_name : String)
    (context : Context V) : Except E Response :=
  match render_body tera template_name context with
  | Except.error e => Except.error e
  | Except.ok body => Except.ok { status := 200, body := body }

/-- A renderer that always succeeds with the string `"x"`, for concrete
instantiations. -/
def constTera : Tera String String := fun _ _ => Except.ok "x"

/-- A renderer that always fails with the error `"boom"`. -/
def failTera : Tera String String := fun _ _ => Except.error "boom"

/-- A renderer distinct from `constTera` but agreeing with it on every input
whose template name is not `"zzz"`. -/
def constTera2 : Tera String String := fun n _ =>
  if n = "zzz" then Except.error "e" else Except.ok "x"

/-- Modelled from the spec: the test fixture `tests/templates/good_template.html`
(not under `src/`) contains `hello {{ name }}!\n`, so the renderer succeeds
on template `"good_template.html"` exactly when the context supplies
`name`, substituting its value into the output. -/
def goodTera : Tera String String := fun template ctx =>
  if template = "good_template.html" then
    match ctx.get "name" with
    | some v => Except.ok ("hello " ++ v ++ "!\n")
    | none => Except.error "Variable not found"
  else Except.error "Template not found"

/-- Folding the `context!` insertions over an accumulator prepends the
reversed pair list to the accumulator's entries. -/
theorem foldl_insert_entries {V : Type} (ps : List (String × V)) (c : Context V) :
    (ps.foldl (fun c kv => c.insert kv.1 kv.2) c).entries = ps.reverse ++ c.entries := by
  induction ps generalizing c with
  | nil => simp
  | cons kv ps ih =>
    rw [List.foldl_cons, ih]
    simp [Context.insert]

/-- The entries of a macro-built context are the argument pairs, newest
first. -/
theorem contextOf_entries {V : Type} (ps : List (String × V)) :
    (contextOf ps).entries = ps.reverse := by
  simpa [Context.new] using foldl_insert_entries ps (Context.new : Context V)

-- concrete evaluations of the path-extension model, matching Rust `Path::extension`
example : extension "good_template.html" = some "html" := by decide
example : extension ".html" = none := by decide
example : extension "a/.html" = none := by decide
example : extension "no_extension" = none := by decide
example : extension "unknown_extension.tide" = some "tide" := by decide
example : extension "INDEX.HTML" = some "HTML" := by decide
example : extension "a/b.tar.gz" = some "gz" := by decide
example : extension "foo." = some "" := by decide
example : extension "a.html/" = some "html" := by decide
example : extension "a.html/." = some "html" := by decide
example : extension "a/.." = none := by decide
example : extension "..gz" = some "gz" := by decide
example : fileName "a/b/." = some "b" := by decide
example : fileName "/" = none := by decide
example : fileName ".." = none := by decide

/-- C5: the context built by the `context!` macro equals the context obtained
by starting from an empty context and inserting each pair one by one in
argument order; it contains exactly the given keys, a duplicated key holding
its last-given value. -/
theorem contextOf_spec {V : Type} (ps : List (String × V)) :
    contextOf ps = ps.foldl (fun c kv => c.insert kv.1 kv.2) Context.new
    ∧ (∀ k, (contextOf ps).get k
        = (ps.reverse.find? (fun kv => kv.1 == k)).map Prod.snd)
    ∧ (∀ k, ((contextOf ps).get k).isSome ↔ k ∈ ps.map Prod.fst) := by
  refine ⟨rfl, fun k => ?_, fun k => ?_⟩
  · simp [Context.get, contextOf_entries]
  · simp [Context.get, contextOf_entries, List.find?_isSome, List.mem_map]

/-- C3: when the renderer fails with error `e`, both `render_body` and
`render_response` return exactly that error, unwrapped. -/
theorem render_error_propagated {E V : Type} (tera : Tera E V) (name : String)
    (ctx : Context V) (e : E) (hr : tera name ctx = Except.error e) :
    render_body tera name ctx = Except.error e
    ∧ render_response tera name ctx = Except.error e := by
  have hb : render_body tera name ctx = Except.error e := by
    unfold render_body; rw [hr]
  exact ⟨hb, by unfold render_response; rw [hb]⟩

theorem render_error_propagated_witness :
    render_body failTera "t.html" (Context.new : Context String) = Except.error "boom"
    ∧ render_response failTera "t.html" (Context.new : Context String)
        = Except.error "boom" :=
  render_error_propagated failTera "t.html" Context.new "boom" rfl

/-- C4: when `render_body` succeeds with body `b`, `render_response` returns
a response with status 200 whose body is exactly `b`. -/
theorem render_response_status_200 {E V : Type} (tera : Tera E V) (name : String)
    (ctx : Context V) (b : Body)
    (hb : render_body tera name ctx = Except.ok b) :
    render_response tera name ctx = Except.ok { status := 200, body := b } := by
  unfold render_response; rw [hb]

theorem render_response_status_200_witness :
    render_response constTera "a.html" (Context.new : Context String)
      = Except.ok { status := 200, body := { text := "x", mime := "text/html" } } :=
  render_response_status_200 constTera "a.html" Context.new
    { text := "x", mime := "text/html" } rfl

/-- C9: when the renderer succeeds with output `s`, the body returned by
`render_body` has content exactly `s`, whatever the identifier's extension:
MIME inference never alters the body text. -/
theorem render_body_text_preserved {E V : Type} (tera : Tera E V) (name : String)
    (ctx : Context V) (s : String) (hr : tera name ctx = Except.ok s) :
    (render_body tera name ctx).map Body.text = Except.ok s := by
  unfold render_body
  rw [hr]
  cases hx : extension name with
  | none => simp [Body.from_string, Except.map]
  | some ext =>
    cases hm : Mime.from_extension ext <;>
      simp [hm, Body.from_string, Body.set_mime, Except.map]

theorem render_body_text_preserved_witness :
    (render_body constTera "good_template.html" (Context.new : Context String)).map
      Body.text = Except.ok "x" :=
  render_body_text_preserved constTera "good_template.html" Context.new "x" rfl

/-- C10: `render_body` and `render_response` are deterministic functions of
the template identifier, the context, and the renderer's outcome on those
inputs: two renderers agreeing there produce equal results. -/
theorem render_deterministic {E V : Type} (t₁ t₂ : Tera E V) (name : String)
    (ctx : Context V) (h : t₁ name ctx = t₂ name ctx) :
    render_body t₁ name ctx = render_body t₂ name ctx
    ∧ render_response t₁ name ctx = render_response t₂ name ctx := by
  have hb : render_body t₁ name ctx = render_body t₂ name ctx := by
    unfold render_body; rw [h]
  exact ⟨hb, by unfold render_response; rw [hb]⟩

theorem render_deterministic_witness :
    render_body constTera "a.html" (Context.new : Context String)
      = render_body constTera2 "a.html" Context.new
    ∧ render_response constTera "a.html" (Context.new : Context String)
      = render_response constTera2 "a.html" Context.new :=
  render_deterministic constTera constTera2 "a.html" Context.new rfl

/-- C2: when the identifier's extension is absent, or present but not in the
extension-to-MIME table, a successful render yields a body with the default
plain-text MIME type: the `set_mime` step is skipped. -/
theorem render_body_default_mime {E V : Type} (tera : Tera E V) (name : String)
    (ctx : Context V) (s : String)
    (hm : (extension name).bind Mime.from_extension = none)
    (hr : tera name ctx = Except.ok s) :
    render_body tera name ctx = Except.ok { text := s, mime := "text/plain" } := by
  unfold render_body
  rw [hr]
  cases hx : extension name with
  | none => simp [Body.from_string]
  | some ext =>
    rw [hx] at hm
    have hm2 : Mime.from_extension ext = none := hm
    simp [hm2, Body.from_string]

theorem render_body_default_mime_witness :
    render_body constTera "unknown_extension.tide" (Context.new : Context String)
      = Except.ok { text := "x", mime := "text/plain" } :=
  render_body_default_mime constTera "unknown_extension.tide" Context.new "x"
    (by decide) rfl

/-- C8: rendering the context mapping "name" to "tide" against the
`.html`-named template whose content renders to `hello tide!\n` yields a
body with exactly that text and MIME type text/html, and a status-200
response carrying that same body. -/
theorem good_template_scenario :
    render_body goodTera "good_template.html" (contextOf [("name", "tide")])
      = Except.ok { text := "hello tide!\n", mime := "text/html" }
    ∧ render_response goodTera "good_template.html" (contextOf [("name", "tide")])
      = Except.ok { status := 200,
                    body := { text := "hello tide!\n", mime := "text/html" } } :=
  ⟨rfl, rfl⟩

/-- takeWhile distributes over an append whose first part wholly satisfies
the predicate. -/
theorem takeWhile_append_all {α : Type} (p : α → Bool) (l₁ l₂ : List α)
    (h : ∀ a ∈ l₁, p a = true) :
    (l₁ ++ l₂).takeWhile p = l₁ ++ l₂.takeWhile p := by
  induction l₁ with
  | nil => simp
  | cons a l ih =>
    have ha : p a = true := h a (by simp)
    have ih2 := ih (fun b hb => h b (by simp [hb]))
    simp [List.takeWhile_cons, ha, ih2]

/-- The reversed character data of a string with `".html"` appended. -/
theorem data_reverse_append_html (p : String) :
    (p ++ ".html").data.reverse
      = 'l' :: 'm' :: 't' :: 'h' :: '.' :: p.data.reverse := by
  show (p.data ++ ".html".data).reverse = _
  rw [List.reverse_append]
  rfl

/-- An identifier of the form `p ++ ".html"` whose final path segment is not
the bare dotfile `".html"` has extracted extension `"html"`. -/
theorem extension_append_html (p : String)
    (hseg : fileName (p ++ ".html") ≠ some ".html") :
    extension (p ++ ".html") = some "html" := by
  have h5 : ∀ a ∈ ['l', 'm', 't', 'h', '.'], (a != '/') = true := by decide
  have hraw : rawLastSeg (p ++ ".html")
      = (p.data.reverse.takeWhile (fun c => c != '/')).reverse
          ++ ['.', 'h', 't', 'm', 'l'] := by
    unfold rawLastSeg
    rw [data_reverse_append_html]
    show ((('l' :: 'm' :: 't' :: 'h' :: '.' :: p.data.reverse)).takeWhile
      (fun c => c != '/')).reverse = _
    rw [show ('l' :: 'm' :: 't' :: 'h' :: '.' :: p.data.reverse)
          = ['l', 'm', 't', 'h', '.'] ++ p.data.reverse from rfl,
        takeWhile_append_all (fun c => c != '/') ['l', 'm', 't', 'h', '.']
          p.data.reverse h5,
        List.reverse_append]
    rfl
  set t := p.data.reverse.takeWhile (fun c => c != '/') with ht_def
  have h1 : ¬(t.reverse ++ ['.', 'h', 't', 'm', 'l'] = []) := by simp
  have h2 : ¬(t.reverse ++ ['.', 'h', 't', 'm', 'l'] = ['.', '.']) := by
    intro h
    have := congrArg List.length h
    simp at this
  have hfn : fileName (p ++ ".html")
      = some ⟨t.reverse ++ ['.', 'h', 't', 'm', 'l']⟩ := by
    unfold fileName
    rw [hraw, if_neg h1, if_neg h2]
  have ht : t ≠ [] := by
    intro h0
    apply hseg
    rw [hfn, h0]
    rfl
  have htlen : t.length ≠ 0 := by simpa [List.length_eq_zero] using ht
  have hcand : extCandidate (t.reverse ++ ['.', 'h', 't', 'm', 'l'])
      = ['l', 'm', 't', 'h'] := by
    unfold extCandidate
    rw [List.reverse_append, List.reverse_reverse]
    show (('l' :: 'm' :: 't' :: 'h' :: '.' :: t)).takeWhile (fun c => c != '.') = _
    rw [show ('l' :: 'm' :: 't' :: 'h' :: '.' :: t)
          = ['l', 'm', 't', 'h'] ++ ('.' :: t) from rfl,
        takeWhile_append_all (fun c => c != '.') ['l', 'm', 't', 'h']
          ('.' :: t) (by decide)]
    simp [List.takeWhile_cons]
  have hflen : (t.reverse ++ ['.', 'h', 't', 'm', 'l']).length = t.length + 5 := by
    simp
  have hext : extOfFileName (t.reverse ++ ['.', 'h', 't', 'm', 'l'])
      = some ['h', 't', 'm', 'l'] := by
    unfold extOfFileName
    rw [hcand, hflen]
    rw [if_neg (by simp), if_neg (by simpa using htlen)]
    rfl
  unfold extension
  rw [hfn]
  show (extOfFileName (t.reverse ++ ['.', 'h', 't', 'm', 'l'])).map
    (fun e => (⟨e⟩ : String)) = some "html"
  rw [hext]
  rfl

/-- C1 (amended): for every identifier of the form `p ++ ".html"` whose
final path segment is not the bare dotfile `".html"`, a successful render
yields a body with MIME type text/html. -/
theorem render_body_html_mime {E V : Type} (tera : Tera E V) (p name : String)
    (ctx : Context V) (s : String)
    (hname : name = p ++ ".html")
    (hseg : fileName name ≠ some ".html")
    (hr : tera name ctx = Except.ok s) :
    render_body tera name ctx = Except.ok { text := s, mime := "text/html" } := by
  subst hname
  have hx := extension_append_html p hseg
  unfold render_body
  rw [hr, hx]
  rfl

theorem render_body_html_mime_witness :
    render_body constTera "index.html" (Context.new : Context String)
      = Except.ok { text := "x", mime := "text/html" } :=
  render_body_html_mime constTera "index" "index.html" Context.new "x"
    (by decide) (by decide) rfl

/-- C1 counterexample: the identifier `".html"` ends in `".html"` and
renders successfully, yet the resulting body has the plain-text MIME type,
not text/html. -/
theorem render_body_html_suffix_cex :
    ("" : String) ++ ".html" = ".html"
    ∧ constTera ".html" (Context.new : Context String) = Except.ok "x"
    ∧ render_body constTera ".html" (Context.new : Context String)
        = Except.ok { text := "x", mime := "text/plain" }
    ∧ ("text/plain" : String) ≠ "text/html" :=
  ⟨by decide, rfl, rfl, by decide⟩

/-- C6 (amended): when the final path segment of `name` splits as
`stem ++ "." ++ e` with `e` dot-free (so `e` is the substring after the
last dot), the extracted extension is `e` — except that a leading-dot-only
segment (empty `stem`) has no extension. -/
theorem extension_eq_after_last_dot (name stem e : String)
    (hf : fileName name = some (stem ++ "." ++ e))
    (he : '.' ∉ e.data) :
    extension name = if stem = "" then none else some e := by
  have hdata : (stem ++ "." ++ e).data = stem.data ++ '.' :: e.data := by
    show (stem.data ++ ".".data) ++ e.data = _
    simp
  have hall : ∀ a ∈ e.data.reverse, (a != '.') = true := by
    intro a ha
    rw [List.mem_reverse] at ha
    have hne : a ≠ '.' := fun h0 => he (h0 ▸ ha)
    simpa using hne
  have hcand : extCandidate ((stem ++ "." ++ e).data) = e.data.reverse := by
    unfold extCandidate
    rw [hdata, List.reverse_append, List.reverse_cons, List.append_assoc,
        takeWhile_append_all (fun c => c != '.') e.data.reverse
          (['.'] ++ stem.data.reverse) hall]
    simp [List.takeWhile_cons]
  have hlen : ((stem ++ "." ++ e).data).length
      = stem.data.length + 1 + e.data.length := by
    rw [hdata]
    simp
    omega
  unfold extension
  rw [hf]
  show (extOfFileName ((stem ++ "." ++ e).data)).map (fun l => (⟨l⟩ : String))
      = if stem = "" then none else some e
  unfold extOfFileName
  rw [hcand, hlen, List.length_reverse]
  rw [if_neg (by omega)]
  by_cases hs : stem = ""
  · subst hs
    have h0 : ("" : String).data.length = 0 := rfl
    rw [if_pos (by omega), if_pos rfl]
    rfl
  · have hsd : stem.data ≠ [] := by
      intro h0
      apply hs
      have h2 : stem = (⟨stem.data⟩ : String) := rfl
      rw [h0] at h2
      rw [h2]
    have hlen0 : stem.data.length ≠ 0 := fun h0 => hsd (List.length_eq_zero.mp h0)
    rw [if_neg (by omega), if_neg hs]
    show some (⟨e.data.reverse.reverse⟩ : String) = some e
    rw [List.reverse_reverse]

theorem extension_eq_after_last_dot_witness :
    extension "a/b.txt" = if ("b" : String) = "" then none else some "txt" :=
  extension_eq_after_last_dot "a/b.txt" "b" "txt" (by decide) (by decide)

/-- C6 counterexample: the identifier `"a/.html"` has final segment
`".html"` (leading dot, no other dot), yet its extracted extension is
`none` and a successful render yields the plain-text MIME type, not
text/html. -/
theorem dotfile_extension_cex :
    fileName "a/.html" = some ".html"
    ∧ extension "a/.html" = none
    ∧ render_body constTera "a/.html" (Context.new : Context String)
        = Except.ok { text := "x", mime := "text/plain" }
    ∧ ("text/plain" : String) ≠ "text/html" :=
  ⟨by decide, by decide, rfl, by decide⟩

/-- An extension containing an uppercase letter matches no key of the
lowercase-keyed extension-to-MIME table. -/
theorem from_extension_none_of_upper (e : String) (c : Char)
    (hc : c ∈ e.data) (hup : c.isUpper = true) :
    Mime.from_extension e = none := by
  unfold Mime.from_extension
  split_ifs with h1 h2 h3 h4 h5 h6
  · exfalso
    subst h1
    have hlow : ∀ a ∈ "html".data, a.isUpper = false := by decide
    rw [hlow c hc] at hup
    exact Bool.false_ne_true hup
  · exfalso
    rcases h2 with h | h | h <;> subst h <;>
      [skip; skip; skip] <;> first
      | (have hlow : ∀ a ∈ "js".data, a.isUpper = false := by decide
         rw [hlow c hc] at hup; exact Bool.false_ne_true hup)
      | (have hlow : ∀ a ∈ "mjs".data, a.isUpper = false := by decide
         rw [hlow c hc] at hup; exact Bool.false_ne_true hup)
      | (have hlow : ∀ a ∈ "jsonp".data, a.isUpper = false := by decide
         rw [hlow c hc] at hup; exact Bool.false_ne_true hup)
  · exfalso
    subst h3
    have hlow : ∀ a ∈ "json".data, a.isUpper = false := by decide
    rw [hlow c hc] at hup
    exact Bool.false_ne_true hup
  · exfalso
    subst h4
    have hlow : ∀ a ∈ "css".data, a.isUpper = false := by decide
    rw [hlow c hc] at hup
    exact Bool.false_ne_true hup
  · exfalso
    subst h5
    have hlow : ∀ a ∈ "svg".data, a.isUpper = false := by decide
    rw [hlow c hc] at hup
    exact Bool.false_ne_true hup
  · exfalso
    subst h6
    have hlow : ∀ a ∈ "xml".data, a.isUpper = false := by decide
    rw [hlow c hc] at hup
    exact Bool.false_ne_true hup
  · rfl

/-- C7 (amended): the extension-to-MIME lookup is case-sensitive over
lowercase keys, so an identifier whose extension contains an uppercase
letter yields a body with the default plain-text MIME type on a successful
render. -/
theorem render_body_uppercase_ext_plain {E V : Type} (tera : Tera E V)
    (name : String) (ctx : Context V) (s e : String) (c : Char)
    (hx : extension name = some e) (hc : c ∈ e.data) (hup : c.isUpper = true)
    (hr : tera name ctx = Except.ok s) :
    render_body tera name ctx = Except.ok { text := s, mime := "text/plain" } := by
  have hm := from_extension_none_of_upper e c hc hup
  unfold render_body
  rw [hr, hx]
  show Except.ok (match Mime.from_extension e with
    | none => Body.from_string s
    | some mime => (Body.from_string s).set_mime mime) = _
  rw [hm]
  rfl

theorem render_body_uppercase_ext_plain_witness :
    render_body constTera "INDEX.HTML" (Context.new : Context String)
      = Except.ok { text := "x", mime := "text/plain" } :=
  render_body_uppercase_ext_plain constTera "INDEX.HTML" Context.new "x" "HTML" 'H'
    (by decide) (by decide) (by decide) rfl

/-- C7 counterexample: the identifier `"INDEX.HTML"` has extension
`"HTML"`, which differs from the table key `"html"` only by case, yet the
lookup misses and a successful render yields the plain-text MIME type, not
text/html. -/
theorem uppercase_extension_cex :
    extension "INDEX.HTML" = some "HTML"
    ∧ Mime.from_extension "HTML" = none
    ∧ Mime.from_extension "html" = some "text/html"
    ∧ render_body constTera "INDEX.HTML" (Context.new : Context String)
        = Except.ok { text := "x", mime := "text/plain" }
    ∧ ("text/plain" : String) ≠ "text/html" :=
  ⟨by decide, by decide, by decide, rfl, by decide⟩
